import Mathlib

/-!
Shallow embedding of the fw24 entity-access layer: the `BaseEntityService`
facade (identifier extraction, derived IO schemas, access-pattern resolution,
search-attribute handling and relation hydration).  JavaScript runtime values
are modelled by the `Value` type below; JS objects are ordered association
lists, mirroring both insertion-order iteration and `JSON.stringify`
serialization order.  `Value.vnull` stands for both `null` and `undefined`
(the embedding distinguishes an absent key, `Option.none`, from a present
null key, which is all the modelled code observes).
-/

inductive Value where
  | vnull : Value
  | vbool (b : Bool) : Value
  | vnum (n : Int) : Value
  | vstr (s : String) : Value
  | vobj (fields : List (String × Value)) : Value
  | varr (elems : List Value) : Value
deriving Repr

mutual

def Value.decEq : (a b : Value) → Decidable (a = b)
  | .vnull, .vnull => .isTrue rfl
  | .vbool a, .vbool b =>
    if h : a = b then .isTrue (h ▸ rfl) else .isFalse (fun he => h (by injection he))
  | .vnum a, .vnum b =>
    if h : a = b then .isTrue (h ▸ rfl) else .isFalse (fun he => h (by injection he))
  | .vstr a, .vstr b =>
    if h : a = b then .isTrue (h ▸ rfl) else .isFalse (fun he => h (by injection he))
  | .vobj a, .vobj b =>
    match Value.decEqFields a b with
    | .isTrue h => .isTrue (h ▸ rfl)
    | .isFalse h => .isFalse (fun he => h (by injection he))
  | .varr a, .varr b =>
    match Value.decEqElems a b with
    | .isTrue h => .isTrue (h ▸ rfl)
    | .isFalse h => .isFalse (fun he => h (by injection he))
  | .vnull, .vbool _ => .isFalse (fun h => Value.noConfusion h)
  | .vnull, .vnum _ => .isFalse (fun h => Value.noConfusion h)
  | .vnull, .vstr _ => .isFalse (fun h => Value.noConfusion h)
  | .vnull, .vobj _ => .isFalse (fun h => Value.noConfusion h)
  | .vnull, .varr _ => .isFalse (fun h => Value.noConfusion h)
  | .vbool _, .vnull => .isFalse (fun h => Value.noConfusion h)
  | .vbool _, .vnum _ => .isFalse (fun h => Value.noConfusion h)
  | .vbool _, .vstr _ => .isFalse (fun h => Value.noConfusion h)
  | .vbool _, .vobj _ => .isFalse (fun h => Value.noConfusion h)
  | .vbool _, .varr _ => .isFalse (fun h => Value.noConfusion h)
  | .vnum _, .vnull => .isFalse (fun h => Value.noConfusion h)
  | .vnum _, .vbool _ => .isFalse (fun h => Value.noConfusion h)
  | .vnum _, .vstr _ => .isFalse (fun h => Value.noConfusion h)
  | .vnum _, .vobj _ => .isFalse (fun h => Value.noConfusion h)
  | .vnum _, .varr _ => .isFalse (fun h => Value.noConfusion h)
  | .vstr _, .vnull => .isFalse (fun h => Value.noConfusion h)
  | .vstr _, .vbool _ => .isFalse (fun h => Value.noConfusion h)
  | .vstr _, .vnum _ => .isFalse (fun h => Value.noConfusion h)
  | .vstr _, .vobj _ => .isFalse (fun h => Value.noConfusion h)
  | .vstr _, .varr _ => .isFalse (fun h => Value.noConfusion h)
  | .vobj _, .vnull => .isFalse (fun h => Value.noConfusion h)
  | .vobj _, .vbool _ => .isFalse (fun h => Value.noConfusion h)
  | .vobj _, .vnum _ => .isFalse (fun h => Value.noConfusion h)
  | .vobj _, .vstr _ => .isFalse (fun h => Value.noConfusion h)
  | .vobj _, .varr _ => .isFalse (fun h => Value.noConfusion h)
  | .varr _, .vnull => .isFalse (fun h => Value.noConfusion h)
  | .varr _, .vbool _ => .isFalse (fun h => Value.noConfusion h)
  | .varr _, .vnum _ => .isFalse (fun h => Value.noConfusion h)
  | .varr _, .vstr _ => .isFalse (fun h => Value.noConfusion h)
  | .varr _, .vobj _ => .isFalse (fun h => Value.noConfusion h)
termination_by structural a => a

def Value.decEqFields : (a b : List (String × Value)) → Decidable (a = b)
  | [], [] => .isTrue rfl
  | [], _ :: _ => .isFalse (fun h => List.noConfusion h)
  | _ :: _, [] => .isFalse (fun h => List.noConfusion h)
  | (k, v) :: xs, (k2, v2) :: ys =>
    if hk : k = k2 then
      match Value.decEq v v2 with
      | .isFalse h => .isFalse (fun he => by injection he with h1 h2; exact h (congrArg Prod.snd h1))
      | .isTrue hv =>
        match Value.decEqFields xs ys with
        | .isTrue hrest => .isTrue (by rw [hk, hv, hrest])
        | .isFalse h => .isFalse (fun he => by injection he with h1 h2; exact h h2)
    else .isFalse (fun he => by injection he with h1 h2; exact hk (congrArg Prod.fst h1))
termination_by structural a => a

def Value.decEqElems : (a b : List Value) → Decidable (a = b)
  | [], [] => .isTrue rfl
  | [], _ :: _ => .isFalse (fun h => List.noConfusion h)
  | _ :: _, [] => .isFalse (fun h => List.noConfusion h)
  | v :: xs, v2 :: ys =>
    match Value.decEq v v2 with
    | .isFalse h => .isFalse (fun he => by injection he with h1 h2; exact h h1)
    | .isTrue hv =>
      match Value.decEqElems xs ys with
      | .isTrue hrest => .isTrue (by rw [hv, hrest])
      | .isFalse h => .isFalse (fun he => by injection he with h1 h2; exact h h2)
termination_by structural a => a

end

instance : DecidableEq Value := Value.decEq

/-- JavaScript truthiness of a runtime value (objects and arrays are always
truthy, empty strings, zero, `false`, `null` and `undefined` are falsy). -/
def Value.truthy : Value → Bool
  | .vnull => false
  | .vbool b => b
  | .vnum n => n != 0
  | .vstr s => !s.isEmpty
  | .vobj _ => true
  | .varr _ => true

/-- Modelled from the spec: the `isObject` helper of the utils module (not
under src/), lodash-style - true for non-null values of object type, which
includes arrays. -/
def isObjectVal : Value → Bool
  | .vobj _ => true
  | .varr _ => true
  | _ => false

/-- A JS object used as a record: an ordered association list of fields. -/
abbrev JsRecord := List (String × Value)

/-- `record.hasOwnProperty(key)`. -/
def recHas (r : JsRecord) (k : String) : Bool :=
  r.any (fun p => p.1 == k)

/-- `record[key]`, `none` when the key is absent. -/
def recLookup (r : JsRecord) (k : String) : Option Value :=
  (r.find? (fun p => p.1 == k)).map (fun p => p.2)

/-- `record[key] = v`: updates the value in place when the key exists
(keeping its position, as JS objects do) and appends the key otherwise. -/
def recSet (r : JsRecord) (k : String) (v : Value) : JsRecord :=
  if recHas r k then r.map (fun p => if p.1 == k then (k, v) else p)
  else r ++ [(k, v)]

/-- `Map.set` on an insertion-ordered map (JS `Map` semantics: an existing
key keeps its position, a new key is appended). -/
def mapSet {α : Type} (m : List (String × α)) (k : String) (v : α) : List (String × α) :=
  if m.any (fun p => p.1 == k) then m.map (fun p => if p.1 == k then (k, v) else p)
  else m ++ [(k, v)]

/-- `Map.get` on an insertion-ordered map. -/
def mapGet {α : Type} (m : List (String × α)) (k : String) : Option α :=
  (m.find? (fun p => p.1 == k)).map (fun p => p.2)

/-- `Map.has` on an insertion-ordered map. -/
def mapHas {α : Type} (m : List (String × α)) (k : String) : Bool :=
  m.any (fun p => p.1 == k)

/-- Splitting a character list at every character satisfying `p`, keeping
empty segments (the behavior of `String.split` / JS `split` on a
single-character class). -/
def splitCharsBy (p : Char → Bool) : List Char → List (List Char)
  | [] => [[]]
  | c :: rest =>
    let r := splitCharsBy p rest
    if p c then [] :: r
    else
      match r with
      | [] => [[c]]
      | h :: t => (c :: h) :: t

/-- String splitting on a character class, implemented over the character
list so that it evaluates inside the kernel. -/
def splitStringBy (p : Char → Bool) (s : String) : List String :=
  (splitCharsBy p s.toList).map (fun cs => String.mk cs)

def isWhitespaceChar (c : Char) : Bool :=
  c == ' ' || c == '\t' || c == '\n' || c == '\r'

/-- `String.prototype.trim`: strips leading and trailing whitespace. -/
def jsTrim (s : String) : String :=
  String.mk (((s.toList.dropWhile isWhitespaceChar).reverse.dropWhile isWhitespaceChar).reverse)

/-- Modelled from the spec: `getValueByPath` from the utils module (not under
src/) resolves a dot-separated path by successive object-key lookups
(spec 4.5: resolving source values by path lookup into the raw relation
value, supporting nested path lookup, not just flat keys).  `none` models
`undefined`. -/
def getValueByPath (v : Value) (path : String) : Option Value :=
  (splitStringBy (fun c => c == '.') path).foldl
    (fun acc seg =>
      acc.bind (fun cur =>
        match cur with
        | .vobj fields => recLookup fields seg
        | _ => none))
    (some v)

/-- Modelled from the spec: the `isEmpty` helper of the utils module (not
under src/), lodash-style - empty collections and strings are empty, and
primitives (numbers, booleans, null) count as empty as well. -/
def isEmptyVal : Value → Bool
  | .vnull => true
  | .vbool _ => true
  | .vnum _ => true
  | .vstr s => s.isEmpty
  | .vobj f => f.isEmpty
  | .varr e => e.isEmpty

/-- Modelled from the spec: `toHumanReadableName` of the utils module (not
under src/) humanizes an attribute id.  Its exact formatting is
unavailable and no claim depends on it, so it is modelled as the identity. -/
def toHumanReadableName (s : String) : String := s

/-- `RelationIdentifier`: one (source path, target attribute) pair of a
relation identifier mapping.  Either side may be absent in the schema;
an absent side is `undefined` in the source. -/
structure RelationIdentifierMapping where
  source : Option String := none
  target : Option String := none
deriving DecidableEq, Repr

/-- The `identifiers` field of a relation: the source allows a single
mapping or an array of mappings (`Array.isArray(relationMetadata.identifiers)`
in `hydrateSingleRelation` normalizes both forms). -/
inductive RelationIdentifiersSpec where
  | single (m : RelationIdentifierMapping)
  | many (ms : List RelationIdentifierMapping)
deriving DecidableEq, Repr

/-- The `relation` metadata of an attribute.  In the source `relation.entity`
is the related entity schema object itself; the embedding stores the related
entity name (`relation.entity.model.entity`), which is all the code reads
from it, and resolves the schema through the service registry as
`hydrateSingleRelation` does. -/
structure EntityRelation where
  entityName : String
  identifiers : Option RelationIdentifiersSpec := none
deriving DecidableEq, Repr

/-- `EntityAttribute`: a declared attribute of an entity schema.  Optional
flags are `Option Bool`; `none` models an absent property, so that
`att.hasOwnProperty(flag)` checks can be translated faithfully.  The nested
`properties`/`items` sub-attributes of map and list-of-map attributes are
not modelled; no claim concerns them. -/
structure EntityAttribute where
  type : Option String := none
  name : Option String := none
  validations : Option (List String) := none
  required : Option Bool := none
  isIdentifier : Option Bool := none
  hidden : Option Bool := none
  isVisible : Option Bool := none
  isEditable : Option Bool := none
  isListable : Option Bool := none
  isCreatable : Option Bool := none
  isFilterable : Option Bool := none
  isSearchable : Option Bool := none
  relation : Option EntityRelation := none
deriving DecidableEq, Repr

/-- One declared index: `pk.composite` and the optional `sk.composite`. -/
structure EntityIndex where
  pk : List String
  sk : Option (List String) := none
deriving DecidableEq, Repr

/-- `EntitySchema`: entity name, attributes and indexes, both in declaration
order (`for..in` iterates object keys in insertion order). -/
structure EntitySchema where
  entity : String
  attributes : List (String × EntityAttribute) := []
  indexes : List (String × EntityIndex) := []
deriving DecidableEq, Repr

/-- `schema.attributes[attName]`. -/
def lookupAttribute (s : EntitySchema) (attName : String) : Option EntityAttribute :=
  mapGet s.attributes attName

/-- The result shape of `entityAttributeToIOSchemaAttribute`.  Note that the
source destructures `required` out of the attribute and never re-adds it to
the formatted object, so `required` here is always `none`; the boolean
flags `isVisible`..`isSearchable` are materialized with their default-true
semantics. -/
structure TIOSchemaAttribute where
  id : String
  name : String
  type : Option String := none
  hidden : Option Bool := none
  isIdentifier : Option Bool := none
  required : Option Bool := none
  relation : Option EntityRelation := none
  validations : List String := []
  isVisible : Bool := true
  isEditable : Bool := true
  isListable : Bool := true
  isCreatable : Bool := true
  isFilterable : Bool := true
  isSearchable : Bool := true
deriving DecidableEq, Repr

/-- `entityAttributeToIOSchemaAttribute(attId, att)`: formats an attribute
for the IO schemas.  `name` defaults to the humanized id; each
`isX` flag is `!att.hasOwnProperty(isX) || att.isX`; `validations` is
`validations || required ? [required] : []`, i.e. the `required` marker
whenever a validations array is present (arrays are truthy) or the
`required` flag is truthy.  The destructured `required` field itself is
dropped from the result (`required := none`). -/
def entityAttributeToIOSchemaAttribute (attId : String) (att : EntityAttribute) :
    TIOSchemaAttribute :=
  { id := attId
    name := att.name.getD (toHumanReadableName attId)
    type := att.type
    hidden := att.hidden
    isIdentifier := att.isIdentifier
    required := none
    relation := att.relation
    validations := if att.validations.isSome || att.required == some true then ["required"] else []
    isVisible := att.isVisible.getD true
    isEditable := att.isEditable.getD true
    isListable := att.isListable.getD true
    isCreatable := att.isCreatable.getD true
    isFilterable := att.isFilterable.getD true
    isSearchable := att.isSearchable.getD true }

/-- The value type of one access-pattern entry: an insertion-ordered map of
attribute name to formatted attribute. -/
abbrev TIOSchemaAttributesMap := List (String × TIOSchemaAttribute)

/-- The per-index loop of `makeEntityAccessPatternsSchema`: the pk composite
attributes followed by the sk composite attributes, each formatted from
`{...att, required: true}`. -/
def accessPatternIndexAttributes (schema : EntitySchema) (p : String × EntityIndex) :
    TIOSchemaAttributesMap :=
  (p.2.pk ++ p.2.sk.getD []).foldl
    (fun m idxAtt =>
      let att := (lookupAttribute schema idxAtt).getD {}
      mapSet m idxAtt (entityAttributeToIOSchemaAttribute idxAtt { att with required := some true }))
    []

/-- `makeEntityAccessPatternsSchema(schema)`: one entry per declared index
through `accessPatternIndexAttributes`; afterwards a `primary` entry is
ensured, aliasing `accessPatterns.values().next().value` (the first declared
index, or `undefined` - modelled as `none` - when there is no index). -/
def makeEntityAccessPatternsSchema (schema : EntitySchema) :
    List (String × Option TIOSchemaAttributesMap) :=
  let accessPatterns := schema.indexes.foldl
    (fun acc p => mapSet acc p.1 (some (accessPatternIndexAttributes schema p)))
    []
  if mapHas accessPatterns "primary" then accessPatterns
  else mapSet accessPatterns "primary"
    (match accessPatterns.head? with
     | some q => q.2
     | none => none)

/-- `getEntityPrimaryIdPropertyName()`: the first attribute whose
`isIdentifier` flag is truthy, `undefined` when there is none. -/
def getEntityPrimaryIdPropertyName (schema : EntitySchema) : Option String :=
  (schema.attributes.find? (fun p => p.2.isIdentifier.getD false)).map (fun p => p.1)

/-- The `context` argument of `extractEntityIdentifiers`. -/
structure ExtractEntityIdentifiersContext where
  forAccessPattern : Option String := none
deriving DecidableEq, Repr

/-- Whether an access pattern is selected by the context:
`!context.forAccessPattern || accessPatternName == context.forAccessPattern`
(an absent or empty-string pattern name is falsy and selects every pattern). -/
def accessPatternSelected (context : ExtractEntityIdentifiersContext) (name : String) : Bool :=
  match context.forAccessPattern with
  | none => true
  | some s => s.isEmpty || name == s

/-- The inner loop of `extractEntityIdentifiers` for one input record: for
each identifier attribute, copy the input value when the key is present;
otherwise, when the attribute is the primary identifier attribute and the
input carries a generic `id` key, use that; otherwise (when the attribute is
required) only a warning is logged and nothing is copied. -/
def extractIdentifiersForInput (identifierAttributes : List (String × Bool))
    (primaryAttName : Option String) (fields : JsRecord) : JsRecord :=
  identifierAttributes.foldl
    (fun identifiers p =>
      if recHas fields p.1 then
        recSet identifiers p.1 ((recLookup fields p.1).getD .vnull)
      else if primaryAttName == some p.1 && recHas fields "id" then
        recSet identifiers p.1 ((recLookup fields "id").getD .vnull)
      else identifiers)
    []

/-- The access patterns the identifier-extraction loop visits: all of them,
or only the one named by `context.forAccessPattern`. -/
def selectedAccessPatterns (schema : EntitySchema)
    (context : ExtractEntityIdentifiersContext) :
    List (String × Option TIOSchemaAttributesMap) :=
  (makeEntityAccessPatternsSchema schema).filter
    (fun p => accessPatternSelected context p.1)

/-- The identifier attribute `{name, required}` list the extraction loop
accumulates over the selected access patterns. -/
def resolvedIdentifierAttributes (schema : EntitySchema)
    (context : ExtractEntityIdentifiersContext) : List (String × Bool) :=
  (selectedAccessPatterns schema context).flatMap
    (fun p => (p.2.getD []).map (fun q => (q.2.id, q.2.required == some true)))

/-- Left-to-right effectful map over `Except`, mirroring a JS `Array.map`
whose callback can throw: the first throwing element aborts the whole
call. -/
def mapExcept {α β : Type} (f : α → Except String β) : List α → Except String (List β)
  | [] => .ok []
  | x :: xs =>
    match f x with
    | .error e => .error e
    | .ok y =>
      match mapExcept f xs with
      | .error e => .error e
      | .ok ys => .ok (y :: ys)

/-- One batch element of the extraction loop.  A `null`/`undefined` element
throws a `TypeError` as soon as the loop calls `input.hasOwnProperty` on it,
i.e. whenever at least one identifier attribute was resolved (with no
identifier attributes the loop body never runs and the element yields an
empty identifier object).  Other primitive elements box to wrapper objects
and also yield an empty identifier object (the own properties of string
wrappers - `length` and the numeric indices - are not modelled; no claim
touches them). -/
def extractIdentifiersForInputValue (identifierAttributes : List (String × Bool))
    (primaryAttName : Option String) (inp : Value) : Except String JsRecord :=
  match inp with
  | .vnull =>
    if identifierAttributes.isEmpty then .ok []
    else .error "TypeError: Cannot read properties of null"
  | .vobj fs => .ok (extractIdentifiersForInput identifierAttributes primaryAttName fs)
  | _ => .ok (extractIdentifiersForInput identifierAttributes primaryAttName [])

/-- `extractEntityIdentifiers(input, context)`.  Throws when the input is
falsy or not of object type; otherwise scans the access patterns selected by
the context to build the identifier attribute list (the JS `Set` receives a
fresh object per `add` and therefore never deduplicates - it behaves as a
list), maps every input record through `extractIdentifiersForInputValue`
(which throws on a null batch element as the loop dereferences it), and
mirrors the input shape (batch in, batch out).  Iterating an access pattern
whose stored value is `undefined` (possible only for a schema with no
indexes, whose `primary` alias is `undefined`) throws a `TypeError`. -/
def extractEntityIdentifiers (schema : EntitySchema) (input : Value)
    (context : ExtractEntityIdentifiersContext := {}) : Except String Value :=
  if !input.truthy || !isObjectVal input then
    .error "Input is required and must be an object containing entity-identifiers or an array of objects containing entity-identifiers"
  else
    let isBatchInput := match input with | .varr _ => true | _ => false
    let inputs : List Value := match input with | .varr xs => xs | v => [v]
    if (selectedAccessPatterns schema context).any (fun p => p.2.isNone) then
      .error "TypeError: undefined is not iterable"
    else
      let identifierAttributes := resolvedIdentifierAttributes schema context
      let primaryAttName := getEntityPrimaryIdPropertyName schema
      match mapExcept (extractIdentifiersForInputValue identifierAttributes primaryAttName)
          inputs with
      | .error e => .error e
      | .ok identifiersBatch =>
        if isBatchInput then .ok (.varr (identifiersBatch.map Value.vobj))
        else .ok (.vobj (identifiersBatch.headD []))

/-- The four attribute maps accumulated by the loop of
`makeOpsDefaultIOSchema`. -/
structure OpsSchemaAccumulator where
  detail : TIOSchemaAttributesMap := []
  listOut : TIOSchemaAttributesMap := []
  createIn : TIOSchemaAttributesMap := []
  updateIn : TIOSchemaAttributesMap := []
deriving DecidableEq, Repr

/-- One iteration of the attribute loop of `makeOpsDefaultIOSchema`: skip the
attribute entirely when the formatted attribute is hidden, otherwise add it
to the detail output iff visible, the list output iff listable, the create
input iff creatable and the update input iff editable. -/
def opsSchemaStep (acc : OpsSchemaAccumulator) (p : String × EntityAttribute) :
    OpsSchemaAccumulator :=
  let formattedAtt := entityAttributeToIOSchemaAttribute p.1 p.2
  if formattedAtt.hidden.getD false then acc
  else
    let acc := if formattedAtt.isVisible then
      { acc with detail := mapSet acc.detail p.1 formattedAtt } else acc
    let acc := if formattedAtt.isListable then
      { acc with listOut := mapSet acc.listOut p.1 formattedAtt } else acc
    let acc := if formattedAtt.isCreatable then
      { acc with createIn := mapSet acc.createIn p.1 formattedAtt } else acc
    if formattedAtt.isEditable then
      { acc with updateIn := mapSet acc.updateIn p.1 formattedAtt } else acc

/-- The result shape of `makeOpsDefaultIOSchema`: `get`/`delete`/`update`
carry the resolved `primary` access pattern (`by`), `create` carries its
input map plus both output maps, `update` its input map plus the detail
output, `list` only the list output. -/
structure OpsDefaultIOSchema where
  getBy : Option TIOSchemaAttributesMap
  getOutput : TIOSchemaAttributesMap
  deleteBy : Option TIOSchemaAttributesMap
  createInput : TIOSchemaAttributesMap
  createOutputDetail : TIOSchemaAttributesMap
  createOutputList : TIOSchemaAttributesMap
  updateBy : Option TIOSchemaAttributesMap
  updateInput : TIOSchemaAttributesMap
  updateOutput : TIOSchemaAttributesMap
  listOutput : TIOSchemaAttributesMap
deriving DecidableEq, Repr

/-- `makeOpsDefaultIOSchema(schema)`: one pass over the attributes in
declaration order through `opsSchemaStep`, then the `primary` access pattern
is attached as the default `by` shape of get, delete and update. -/
def makeOpsDefaultIOSchema (schema : EntitySchema) : OpsDefaultIOSchema :=
  let acc := schema.attributes.foldl opsSchemaStep {}
  let accessPatterns := makeEntityAccessPatternsSchema schema
  let defaultAccessPattern := (mapGet accessPatterns "primary").join
  { getBy := defaultAccessPattern
    getOutput := acc.detail
    deleteBy := defaultAccessPattern
    createInput := acc.createIn
    createOutputDetail := acc.detail
    createOutputList := acc.listOut
    updateBy := defaultAccessPattern
    updateInput := acc.updateIn
    updateOutput := acc.detail
    listOutput := acc.listOut }

/-- `getDefaultSerializationAttributeNames()`: the keys of the detail (get)
output map. -/
def getDefaultSerializationAttributeNames (schema : EntitySchema) : List String :=
  (makeOpsDefaultIOSchema schema).getOutput.map (fun p => p.1)

/-- `getListingAttributeNames()`: the keys of the list output map. -/
def getListingAttributeNames (schema : EntitySchema) : List String :=
  (makeOpsDefaultIOSchema schema).listOutput.map (fun p => p.1)

/-- `getSearchableAttributeNames()`: all attributes that are not hidden, not
identifiers, of string type, and not explicitly flagged
`isSearchable: false`. -/
def getSearchableAttributeNames (schema : EntitySchema) : List String :=
  (schema.attributes.filter (fun p =>
    !p.2.hidden.getD false && !p.2.isIdentifier.getD false && p.2.type == some "string"
      && (p.2.isSearchable.isNone || p.2.isSearchable.getD false))).map (fun p => p.1)

/-- `getFilterableAttributeNames()`: all attributes that are not hidden, of
string or number type, and not explicitly flagged `isFilterable: false`. -/
def getFilterableAttributeNames (schema : EntitySchema) : List String :=
  (schema.attributes.filter (fun p =>
    !p.2.hidden.getD false && (p.2.type == some "string" || p.2.type == some "number")
      && (p.2.isFilterable.isNone || p.2.isFilterable.getD false))).map (fun p => p.1)

/-- A node of the parsed selection tree: a boolean leaf, a plain nested
selection, or a relation-bearing node carrying resolved relation metadata
(target entity name, identifier mappings) plus its nested selection. -/
inductive SelectionNode where
  | leaf : SelectionNode
  | nested (children : List (String × SelectionNode)) : SelectionNode
  | rel (entityName : String) (identifiers : Option RelationIdentifiersSpec)
      (children : List (String × SelectionNode)) : SelectionNode
deriving Repr

/-- An `EntitySelections` value as the facade receives it: either an array of
dot-separated attribute paths or an already-nested selection tree. -/
inductive SelectionsInput where
  | paths (ps : List String) : SelectionsInput
  | tree (t : List (String × SelectionNode)) : SelectionsInput
deriving Repr

/-- Modelled from the spec: one path insertion of `parseEntityAttributePaths`
(module ./query, not under src/).  Spec 4.3: intermediate segments become
nested-selection nodes, the leaf segment becomes a boolean leaf, and paths
sharing a prefix merge non-destructively. -/
def insertSelectionPath (tree : List (String × SelectionNode)) :
    List String → List (String × SelectionNode)
  | [] => tree
  | [seg] => if mapHas tree seg then tree else tree ++ [(seg, .leaf)]
  | seg :: rest =>
    if mapHas tree seg then
      tree.map (fun p =>
        if p.1 == seg then
          (seg,
            match p.2 with
            | .leaf => SelectionNode.nested (insertSelectionPath [] rest)
            | .nested ch => SelectionNode.nested (insertSelectionPath ch rest)
            | .rel e i ch => SelectionNode.rel e i (insertSelectionPath ch rest))
        else p)
    else tree ++ [(seg, SelectionNode.nested (insertSelectionPath [] rest))]

/-- Modelled from the spec: `parseEntityAttributePaths(paths)` from the
./query module (not under src/) splits each dot-separated path into
segments and merges it into the selection tree. -/
def parseEntityAttributePaths (paths : List String) : List (String × SelectionNode) :=
  paths.foldl (fun tree p => insertSelectionPath tree (splitStringBy (fun c => c == '.') p)) []

/-- Modelled from the spec: `inferRelationshipsForEntitySelections` from the
./query module (not under src/).  Spec 4.3: walks the tree and, for any
attribute the schema marks as carrying relation metadata, attaches the
resolved relation (target entity name, identifier mappings) to that node if
not already present; names the schema does not recognize as relations pass
through as plain nodes.  The recursion into the related entity schema is
modelled one level deep; no claim depends on deeper levels. -/
def inferRelationshipsForEntitySelections (schema : EntitySchema)
    (tree : List (String × SelectionNode)) : List (String × SelectionNode) :=
  tree.map (fun p =>
    match (lookupAttribute schema p.1).bind (fun a => a.relation) with
    | some r =>
      (p.1,
        match p.2 with
        | .leaf => SelectionNode.rel r.entityName r.identifiers []
        | .nested ch => SelectionNode.rel r.entityName r.identifiers ch
        | .rel e i ch => SelectionNode.rel e i ch)
    | none => p)

/-- The key set `serializeRecord` projects onto: `Object.keys` of the parsed
tree when the attributes are an array of paths, `Object.keys` of the given
object otherwise. -/
def serializationKeys : SelectionsInput → List String
  | .paths ps => (parseEntityAttributePaths ps).map (fun p => p.1)
  | .tree t => t.map (fun p => p.1)

/-- The search-term splitting of `list`/`query`: trim, split on the
delimiter class of `/(?:&| |,|\+)+/` and drop empty tokens. -/
def splitSearchTerms (s : String) : List String :=
  (splitStringBy (fun c => c == '&' || c == ' ' || c == ',' || c == '+') (jsTrim s)).filter
    (fun t => !t.isEmpty)

/-- The searchAttributes resolution of `list()` (run only when non-empty
search terms are present): a string is comma-split with empty entries
dropped, and when the result is missing, falsy or empty
(`!query.searchAttributes || isEmpty(query.searchAttributes)`) it defaults
to the derived searchable attribute names. -/
def listResolveSearchAttributes (schema : EntitySchema) (searchAttributes : Option Value) :
    Value :=
  let sa : Option Value :=
    match searchAttributes with
    | some (.vstr s) => some (.varr (((splitStringBy (fun c => c == ',') s).filter (fun t => !t.isEmpty)).map .vstr))
    | x => x
  match sa with
  | none => .varr ((getSearchableAttributeNames schema).map .vstr)
  | some v =>
    if !v.truthy || isEmptyVal v then .varr ((getSearchableAttributeNames schema).map .vstr)
    else v

/-- The searchAttributes resolution of `query()` (run only when non-empty
search terms are present): `query.searchAttributes || getSearchableAttributeNames()`
- no comma-splitting, and only a falsy value (absent, null, empty string)
falls back to the default; a truthy value, including an empty array, is kept
as-is. -/
def queryResolveSearchAttributes (schema : EntitySchema) (searchAttributes : Option Value) :
    Value :=
  match searchAttributes with
  | none => .varr ((getSearchableAttributeNames schema).map .vstr)
  | some v => if v.truthy then v else .varr ((getSearchableAttributeNames schema).map .vstr)

/-- The query object of `list`/`query` as far as the claims observe it.  The
`filters` merge of the search filter group is performed by functions of the
missing ./query module and is observed by no claim, so it is not carried. -/
structure EntityQueryModel where
  attributes : Option SelectionsInput := none
  search : Option Value := none
  searchAttributes : Option Value := none

/-- `list(query)` up to its interactions with the external persistence
collaborator and the hydrator: resolves the attribute selection (defaulting
to `getListingAttributeNames()`, parsing and relation-inferring array
form), splits a string search term, resolves the search attributes when
non-empty search terms are present, and returns the mutated query object
(as `list` returns `{...entities, query}`) together with the top-level key
set its `serializeRecords` call projects onto. -/
def listOpModel (schema : EntitySchema) (query : EntityQueryModel) :
    EntityQueryModel × List String :=
  let attrs : SelectionsInput :=
    match query.attributes with
    | none => .paths (getListingAttributeNames schema)
    | some a => a
  let attrs : SelectionsInput :=
    match attrs with
    | .paths ps => .tree (inferRelationshipsForEntitySelections schema (parseEntityAttributePaths ps))
    | t => t
  let searchState : Option Value × Option Value :=
    match query.search with
    | none => (query.search, query.searchAttributes)
    | some sv =>
      let searchArr : Value :=
        match sv with
        | .vstr s => .varr ((splitSearchTerms s).map .vstr)
        | v => v
      let lengthPositive : Bool :=
        match searchArr with
        | .varr xs => !xs.isEmpty
        | .vstr s => !s.isEmpty
        | _ => false
      if lengthPositive then
        (some searchArr, some (listResolveSearchAttributes schema query.searchAttributes))
      else (some searchArr, query.searchAttributes)
  ({ attributes := some attrs, search := searchState.1, searchAttributes := searchState.2 },
    serializationKeys attrs)

/-- `query(query)` up to its interactions with the external persistence
collaborator and the hydrator.  Unlike `list`, the resolved selection is a
local (`query.attributes` is not written back), object-form selections are
also run through relation inference, and a present `searchAttributes` is
kept verbatim whenever truthy.  Returns the mutated query object and the
resolved local selection. -/
def queryOpModel (schema : EntitySchema) (query : EntityQueryModel) :
    EntityQueryModel × SelectionsInput :=
  let selectAttributes : SelectionsInput :=
    match query.attributes with
    | none => .paths (getListingAttributeNames schema)
    | some a => a
  let selectAttributes : SelectionsInput :=
    match selectAttributes with
    | .paths ps => .tree (inferRelationshipsForEntitySelections schema (parseEntityAttributePaths ps))
    | .tree t => .tree (inferRelationshipsForEntitySelections schema t)
  let searchState : Option Value × Option Value :=
    match query.search with
    | none => (query.search, query.searchAttributes)
    | some sv =>
      let searchArr : Value :=
        match sv with
        | .vstr s => .varr ((splitSearchTerms s).map .vstr)
        | v => v
      let lengthPositive : Bool :=
        match searchArr with
        | .varr xs => !xs.isEmpty
        | .vstr s => !s.isEmpty
        | _ => false
      if lengthPositive then
        (some searchArr, some (queryResolveSearchAttributes schema query.searchAttributes))
      else (some searchArr, query.searchAttributes)
  ({ attributes := query.attributes, search := searchState.1, searchAttributes := searchState.2 },
    selectAttributes)

/-- One hydrate option as passed to `hydrateSingleRelation`: the related
entity name and the requested selection (`options.attributes`, an array of
attribute names or a selection object). -/
structure HydrateOptionForRelation where
  entityName : String
  attributes : Value := .vnull
deriving DecidableEq, Repr

/-- The related entity service as the hydrator sees it: its schema (for
`getEntityPrimaryIdPropertyName`) and its batched `get`, an external
collaborator that receives the unique identifier batch and the selections
and answers with `entity?.data` (`none` models an undefined response). -/
structure EntityServiceModel where
  schema : EntitySchema
  getData : List JsRecord → Value → Option (List JsRecord)

/-- The identifier object built for one raw relation value: the reduce over
the identifier mappings.  For an object-typed raw value the source is
resolved by path lookup into that value; for a primitive raw value the value
itself is used.  Only truthy identifier values are kept; an `undefined`
target key would become the literal JS key `undefined`. -/
def relationIdentifiersForValue (identifierMappings : List RelationIdentifierMapping)
    (identifiersData : Value) : JsRecord :=
  identifierMappings.foldl
    (fun acc m =>
      let identifierVal : Option Value :=
        if isObjectVal identifiersData then
          match m.source with
          | some src => getValueByPath identifiersData src
          | none => none
        else some identifiersData
      match identifierVal with
      | some v => if v.truthy then recSet acc (m.target.getD "undefined") v else acc
      | none => acc)
    []

/-- The per-root-record identifier batch of `hydrateSingleRelation`: the raw
relation value is treated as a sequence when it is an array and as a
one-element batch otherwise; falsy entries (including an absent attribute)
are dropped, the rest are mapped through `relationIdentifiersForValue`. -/
def recordRelationIdentifiersBatch (identifierMappings : List RelationIdentifierMapping)
    (relatedAttributeName : String) (entityData : JsRecord) : List JsRecord :=
  let raw := recLookup entityData relatedAttributeName
  let identifiersDataBatch : List (Option Value) :=
    match raw with
    | some (.varr xs) => xs.map some
    | other => [other]
  identifiersDataBatch.filterMap
    (fun od =>
      match od with
      | none => none
      | some d =>
        if !d.truthy then none
        else some (relationIdentifiersForValue identifierMappings d))

/-- The duplicate removal of `hydrateSingleRelation`: a JS `Set` of
`JSON.stringify` serializations of the identifier objects, converted back -
i.e. first occurrences in order under structural equality (the canonical
serialization of insertion-ordered objects is injective on the identifier
objects the batch holds). -/
def dedupFirst (l : List JsRecord) : List JsRecord :=
  l.foldl (fun acc x => if acc.contains x then acc else acc ++ [x]) []

/-- The identifier mappings resolved by `hydrateSingleRelation`:
`relationMetadata.identifiers` defaulted to the primary-id to primary-id
mapping of the related service, then normalized to an array. -/
def resolvedIdentifierMappings (relatedEntityService : EntityServiceModel)
    (relationMetadata : EntityRelation) : List RelationIdentifierMapping :=
  let relationPrimaryIdentifierName :=
    getEntityPrimaryIdPropertyName relatedEntityService.schema
  let identifiers := relationMetadata.identifiers.getD
    (.single { source := relationPrimaryIdentifierName, target := relationPrimaryIdentifierName })
  match identifiers with
  | .single m => [m]
  | .many ms => ms

/-- Folding the identifier attribute keys of the first batch entry into the
requested selections (`Object.keys(uniqueRelationIdentifiersBatch[0])`):
missing keys are pushed onto an array selection or added as `true` to an
object selection, so identifier columns are always fetched. -/
def foldIdentifierKeysIntoSelections (firstIdentifiers : JsRecord) (attributes : Value) :
    Value :=
  (firstIdentifiers.map (fun p => p.1)).foldl
    (fun attrsv key =>
      match attrsv with
      | .varr xs => if xs.contains (.vstr key) then attrsv else .varr (xs ++ [.vstr key])
      | .vobj fs => if recHas fs key then attrsv else .vobj (fs ++ [(key, .vbool true)])
      | other => other)
    attributes

/-- `optional related record to assigned value`: a found record is assigned
as an object, a failed `find` assigns `undefined` (modelled `vnull`). -/
def relatedRecordValue : Option JsRecord → Value
  | some r => .vobj r
  | none => .vnull

/-- `hydrateSingleRelation(rootEntityRecords, relatedAttributeName, options)`.
Looks up the related service in the registry (throwing when none is
registered), reads the relation metadata off the schema attribute (warning
and returning unchanged when absent), collects every root record identifier
batch, deduplicates it by canonical serialization, reads
`Object.keys(uniqueRelationIdentifiersBatch[0])` (a `TypeError` when the
unique batch is empty), issues the single batched fetch, and merges each
root record with its matching related record(s) by identifier equality,
assigning a single value when the raw relation value was not an array and
`relatedRecords` is non-empty, and the whole array otherwise.  Returns the
updated records together with the list of batches fetched (one entry per
downstream `get` call).  The source keeps an `identifiersToSourceEntityDictionary`
from each root record (keyed by object reference) to its identifier batch,
filled during the collection pass and iterated in the same order during the
merge; the model recomputes the pure per-record batch at merge time, which
is the same mapping. -/
def hydrateSingleRelation (registry : String → Option EntityServiceModel)
    (schema : EntitySchema) (rootEntityRecords : List JsRecord)
    (relatedAttributeName : String) (options : HydrateOptionForRelation) :
    Except String (List JsRecord × List (List JsRecord)) :=
  match registry options.entityName with
  | none => .error "No service found in the defaultMetaContainer for this relationship; please make sure service or factory has been registered"
  | some relatedEntityService =>
    match (lookupAttribute schema relatedAttributeName).bind (fun a => a.relation) with
    | none => .ok (rootEntityRecords, [])
    | some relationMetadata =>
      let identifierMappings := resolvedIdentifierMappings relatedEntityService relationMetadata
      let relationIdentifiersBatch := rootEntityRecords.flatMap
        (recordRelationIdentifiersBatch identifierMappings relatedAttributeName)
      let uniqueRelationIdentifiersBatch := dedupFirst relationIdentifiersBatch
      match uniqueRelationIdentifiersBatch with
      | [] => .error "TypeError: Cannot convert undefined or null to object"
      | firstIdentifiers :: _ =>
        let selections := foldIdentifierKeysIntoSelections firstIdentifiers options.attributes
        let relatedEntities := relatedEntityService.getData uniqueRelationIdentifiersBatch selections
        let newRecords := rootEntityRecords.map
          (fun r =>
            let identifiersBatch := recordRelationIdentifiersBatch identifierMappings
              relatedAttributeName r
            let relatedRecords : List (Option JsRecord) := identifiersBatch.map
              (fun identifiers =>
                (relatedEntities.getD []).find?
                  (fun relatedEntityData =>
                    identifiers.all (fun q => recLookup relatedEntityData q.1 == some q.2)))
            let isToManyRelation : Bool :=
              match recLookup r relatedAttributeName with
              | some (.varr _) => true
              | _ => false
            if !isToManyRelation && relatedRecords.length > 0 then
              recSet r relatedAttributeName (relatedRecordValue (relatedRecords.headD none))
            else
              recSet r relatedAttributeName (.varr (relatedRecords.map relatedRecordValue)))
        .ok (newRecords, [uniqueRelationIdentifiersBatch])

/-- `hydrateRecords(relations, rootEntityRecords)`: one
`hydrateSingleRelation` per selected relation attribute.  The source fires
them through `Promise.all`; since each call touches only its own relation
attribute, the sequential composition is a faithful serialization.  The
fetch traces of the single relations are concatenated. -/
def hydrateRecords (registry : String → Option EntityServiceModel)
    (schema : EntitySchema) (relations : List (String × HydrateOptionForRelation))
    (rootEntityRecords : List JsRecord) :
    Except String (List JsRecord × List (List JsRecord)) :=
  relations.foldlM
    (fun acc p => do
      let r ← hydrateSingleRelation registry schema acc.1 p.1 p.2
      pure (r.1, acc.2 ++ r.2))
    (rootEntityRecords, [])

/-- The `Customer` entity of the spec scenario: primary identifier `id` and
a `name` attribute. -/
def customerSchema : EntitySchema :=
  { entity := "customer"
    attributes :=
      [("id", { type := some "string", isIdentifier := some true }),
       ("name", { type := some "string" })]
    indexes := [("primary", { pk := ["id"] })] }

/-- The `Order` entity of the spec scenario: primary identifier `id`, a
plain `customerId` attribute, and a relation attribute `customer` pointing
at `Customer` with the identifier mapping `customerId -> id`. -/
def orderSchema : EntitySchema :=
  { entity := "order"
    attributes :=
      [("id", { type := some "string", isIdentifier := some true }),
       ("customerId", { type := some "string" }),
       ("customer",
         { type := some "string"
           relation := some
             { entityName := "customer"
               identifiers := some (.single { source := some "customerId", target := some "id" }) } })]
    indexes := [("primary", { pk := ["id"] })] }

/-- The relation metadata declared on the `customer` attribute of
`orderSchema`. -/
def customerRelationMeta : EntityRelation :=
  { entityName := "customer"
    identifiers := some (.single { source := some "customerId", target := some "id" }) }

def annRecord : JsRecord := [("id", .vstr "c1"), ("name", .vstr "Ann")]

def bobRecord : JsRecord := [("id", .vstr "c2"), ("name", .vstr "Bob")]

/-- The registered `Customer` service of the spec scenario: answers the
batch `[{id:c1},{id:c2}]` with Ann and Bob. -/
def customerServiceModel : EntityServiceModel :=
  { schema := customerSchema
    getData := fun batch _ =>
      if batch = [[("id", .vstr "c1")], [("id", .vstr "c2")]] then some [annRecord, bobRecord]
      else some [] }

/-- The process-wide entity-service registry of the scenario. -/
def demoRegistry : String → Option EntityServiceModel :=
  fun n => if n = "customer" then some customerServiceModel else none

/-- The hydrate option the selection `customer.name` resolves to. -/
def customerHydrateOption : HydrateOptionForRelation :=
  { entityName := "customer", attributes := .varr [.vstr "name"] }

/-- The schema of the C2 evaluation: one attribute `orderId` (the
identifier) and a single index named `byOrder` (so no literal `primary`
index is declared). -/
def orderIdOnlySchema : EntitySchema :=
  { entity := "order"
    attributes := [("orderId", { type := some "string", isIdentifier := some true })]
    indexes := [("byOrder", { pk := ["orderId"] })] }

/-- The formatted attribute the access-pattern resolver stores for
`orderId`: the result of formatting `{...att, required: true}`. -/
def fmtOrderId : TIOSchemaAttribute :=
  entityAttributeToIOSchemaAttribute "orderId"
    { type := some "string", isIdentifier := some true, required := some true }

/-- C2: the resolver does guarantee the `primary` entry (aliasing the first
declared index when none is literally named `primary`), but the claimed
`required=true` forcing does not survive into the resulting map: the
attribute formatter destructures `required` out and never re-emits it, so
every stored entry has `required = undefined` (only the `validations` array
carries a `required` marker).  Evaluated at a one-index schema. -/
theorem claim_C2_access_patterns_required_dropped :
    makeEntityAccessPatternsSchema orderIdOnlySchema =
      [("byOrder", some [("orderId", fmtOrderId)]),
       ("primary", some [("orderId", fmtOrderId)])] ∧
    mapGet (makeEntityAccessPatternsSchema orderIdOnlySchema) "primary" =
      mapGet (makeEntityAccessPatternsSchema orderIdOnlySchema) "byOrder" ∧
    fmtOrderId.required = none ∧
    fmtOrderId.required ≠ some true ∧
    fmtOrderId.validations = ["required"] := by
  refine ⟨by rfl, by rfl, by rfl, by decide, by rfl⟩

/-- C4 counterexample: the spec scenario as literally stated - root records
`{id:1, customerId:c1}`, `{id:2, customerId:c1}`, `{id:3, customerId:c2}` -
crashes instead of hydrating Ann, Ann, Bob: the identifier source paths are
resolved inside the raw value of the `customer` relation attribute, which
these roots do not carry, so every per-record identifier batch is empty and
`Object.keys(uniqueRelationIdentifiersBatch[0])` throws. -/
theorem claim_C4_counterexample :
    hydrateSingleRelation demoRegistry orderSchema
      [[("id", .vnum 1), ("customerId", .vstr "c1")],
       [("id", .vnum 2), ("customerId", .vstr "c1")],
       [("id", .vnum 3), ("customerId", .vstr "c2")]]
      "customer" customerHydrateOption =
    .error "TypeError: Cannot convert undefined or null to object" := by rfl

/-- C4 (amended): with the roots carrying the reference in the relation
attribute itself (`customer: c1` etc., matching how the hydrator resolves
identifier sources inside the raw relation value), hydration matches each
root to its related record by identifier equality and preserves
cardinality: the three single-valued roots receive Ann, Ann and Bob as
single objects, a fourth root whose raw value is the sequence `[c1, c2]`
receives the sequence `[Ann, Bob]`, and exactly one fetch is issued with
the deduplicated batch `[{id:c1},{id:c2}]`. -/
theorem claim_C4_scenario_amended :
    hydrateSingleRelation demoRegistry orderSchema
      [[("id", .vnum 1), ("customer", .vstr "c1")],
       [("id", .vnum 2), ("customer", .vstr "c1")],
       [("id", .vnum 3), ("customer", .vstr "c2")],
       [("id", .vnum 4), ("customer", .varr [.vstr "c1", .vstr "c2"])]]
      "customer" customerHydrateOption =
    .ok ([[("id", .vnum 1), ("customer", .vobj annRecord)],
          [("id", .vnum 2), ("customer", .vobj annRecord)],
          [("id", .vnum 3), ("customer", .vobj bobRecord)],
          [("id", .vnum 4), ("customer", .varr [.vobj annRecord, .vobj bobRecord])]],
         [[[("id", .vstr "c1")], [("id", .vstr "c2")]]]) ∧
    recLookup annRecord "name" = some (.vstr "Ann") ∧
    recLookup bobRecord "name" = some (.vstr "Bob") := by
  refine ⟨by rfl, by rfl, by rfl⟩

/-- C7 counterexample: selecting `customerId` - an attribute the schema
declares no relation for - while a service for the requested target entity
is registered is processed as a silent no-op, not an error: the hydrator
logs a warning and returns with the root records unchanged and no fetch
issued. -/
theorem claim_C7_counterexample :
    hydrateSingleRelation demoRegistry orderSchema
      [[("id", .vnum 1), ("customerId", .vstr "c1")]]
      "customerId" customerHydrateOption =
    .ok ([[("id", .vnum 1), ("customerId", .vstr "c1")]], []) := by rfl

/-- C10: when every root record holds a null or absent raw value for the
relation attribute, the deduplicated identifier batch is empty and
`hydrateSingleRelation` throws (it reads
`Object.keys(uniqueRelationIdentifiersBatch[0])`, i.e. the keys of the
first element of the empty batch) instead of completing and leaving the
records unchanged. -/
theorem claim_C10_empty_batch_crash :
    hydrateSingleRelation demoRegistry orderSchema
      [[("id", .vnum 7), ("customer", .vnull)],
       [("id", .vnum 8)]]
      "customer" customerHydrateOption =
    .error "TypeError: Cannot convert undefined or null to object" := by rfl

/-- C7 (amended): when the schema declares no relation for the selected
attribute, `hydrateSingleRelation` degrades softly - it logs a warning and
returns with the root records unchanged and no downstream fetch - while a
missing registered service for the target entity is the fatal error that
propagates. -/
theorem claim_C7_soft_noop_amended
    (registry : String → Option EntityServiceModel) (svc : EntityServiceModel)
    (schema : EntitySchema) (roots : List JsRecord) (attName : String)
    (options : HydrateOptionForRelation)
    (hsvc : registry options.entityName = some svc)
    (hrel : (lookupAttribute schema attName).bind (fun a => a.relation) = none) :
    hydrateSingleRelation registry schema roots attName options = .ok (roots, []) ∧
    (∀ registryMissing : String → Option EntityServiceModel,
      registryMissing options.entityName = none →
      ∃ e, hydrateSingleRelation registryMissing schema roots attName options = .error e) := by
  constructor
  · simp only [hydrateSingleRelation, hsvc, hrel]
  · intro registryMissing hmiss
    have herr : hydrateSingleRelation registryMissing schema roots attName options =
        .error "No service found in the defaultMetaContainer for this relationship; please make sure service or factory has been registered" := by
      simp only [hydrateSingleRelation, hmiss]
    exact ⟨_, herr⟩

/-- C7 witness: the amended theorem applied at the concrete scenario
fixtures (the `customerId` attribute of `orderSchema` carries no relation
metadata, the demo registry has a `customer` service registered). -/
theorem claim_C7_witness :
    hydrateSingleRelation demoRegistry orderSchema
      [[("id", .vnum 5)]] "customerId" customerHydrateOption =
      .ok ([[("id", .vnum 5)]], []) ∧
    (∃ e, hydrateSingleRelation (fun _ => none) orderSchema
      [[("id", .vnum 5)]] "customerId" customerHydrateOption = .error e) := by
  have h := claim_C7_soft_noop_amended demoRegistry customerServiceModel orderSchema
    [[("id", .vnum 5)]] "customerId" customerHydrateOption rfl rfl
  exact ⟨h.1, h.2 (fun _ => none) rfl⟩

/-- Folding further identifier objects equal to every element of the
accumulator start `[i]` leaves the deduplicated batch at `[i]`. -/
theorem dedupFirst_fold_all_eq (t : List JsRecord) (i : JsRecord)
    (hall : ∀ x ∈ t, x = i) :
    List.foldl (fun acc x => if acc.contains x then acc else acc ++ [x]) [i] t = [i] := by
  induction t with
  | nil => rfl
  | cons b t ih =>
    have hb : b = i := hall b (by simp)
    subst hb
    have hc : ([b] : List JsRecord).contains b = true := by simp
    simp only [List.foldl_cons, hc, if_true]
    exact ih (fun x hx => hall x (by simp [hx]))

/-- Deduplicating a non-empty batch whose every element is `i` yields the
single-element batch `[i]`. -/
theorem dedupFirst_all_eq (l : List JsRecord) (i : JsRecord)
    (hne : l ≠ []) (hall : ∀ x ∈ l, x = i) :
    dedupFirst l = [i] := by
  cases l with
  | nil => exact absurd rfl hne
  | cons a t =>
    have ha : a = i := hall a (by simp)
    subst ha
    have h0 : ([] : List JsRecord).contains a = false := by simp
    simp only [dedupFirst, List.foldl_cons, h0, Bool.false_eq_true, if_false, List.nil_append]
    exact dedupFirst_fold_all_eq t a (fun x hx => hall x (by simp [hx]))

/-- C1: whenever `hydrateSingleRelation` reaches its fetch (registered
service, relation metadata present, non-empty deduplicated batch), the
related service receives exactly one `get` call, and its batch is the
duplicate-free (by structural equality of the canonically ordered
identifier objects) collection of all root record identifier mappings; in
particular, when every root record contributes exactly the same identifier
object `i`, the fetched batch is exactly `[i]`. -/
theorem claim_C1_hydrate_single_fetch_dedup
    (registry : String → Option EntityServiceModel) (svc : EntityServiceModel)
    (schema : EntitySchema) (roots : List JsRecord) (attName : String)
    (options : HydrateOptionForRelation) (relationMetadata : EntityRelation)
    (hsvc : registry options.entityName = some svc)
    (hrel : (lookupAttribute schema attName).bind (fun a => a.relation) = some relationMetadata)
    (hne : dedupFirst (roots.flatMap (recordRelationIdentifiersBatch
        (resolvedIdentifierMappings svc relationMetadata) attName)) ≠ []) :
    (∃ updated, hydrateSingleRelation registry schema roots attName options =
        .ok (updated, [dedupFirst (roots.flatMap (recordRelationIdentifiersBatch
          (resolvedIdentifierMappings svc relationMetadata) attName))])) ∧
    (∀ i : JsRecord, roots ≠ [] →
      (∀ r ∈ roots, recordRelationIdentifiersBatch
          (resolvedIdentifierMappings svc relationMetadata) attName r = [i]) →
      dedupFirst (roots.flatMap (recordRelationIdentifiersBatch
          (resolvedIdentifierMappings svc relationMetadata) attName)) = [i]) := by
  constructor
  · simp only [hydrateSingleRelation, hsvc, hrel]
    cases hd : dedupFirst (roots.flatMap (recordRelationIdentifiersBatch
        (resolvedIdentifierMappings svc relationMetadata) attName)) with
    | nil => exact absurd hd hne
    | cons f rest =>
      simp only [hd]
      exact ⟨_, rfl⟩
  · intro i hroots hall
    apply dedupFirst_all_eq
    · cases roots with
      | nil => exact absurd rfl hroots
      | cons r rs =>
        simp [List.flatMap_cons, hall r (by simp)]
    · intro x hx
      rw [List.mem_flatMap] at hx
      obtain ⟨r, hr, hxr⟩ := hx
      rw [hall r hr] at hxr
      simpa using hxr

def c1Roots : List JsRecord :=
  [[("id", .vnum 1), ("customer", .vstr "c1")],
   [("id", .vnum 2), ("customer", .vstr "c1")],
   [("id", .vnum 3), ("customer", .vstr "c1")]]

/-- C1 witness: three root records all referencing customer `c1` produce a
single fetch whose batch is exactly the one distinct identifier
`{id: c1}`. -/
theorem claim_C1_witness :
    (∃ updated, hydrateSingleRelation demoRegistry orderSchema c1Roots "customer"
        customerHydrateOption =
      .ok (updated, [dedupFirst (c1Roots.flatMap (recordRelationIdentifiersBatch
        (resolvedIdentifierMappings customerServiceModel customerRelationMeta) "customer"))])) ∧
    dedupFirst (c1Roots.flatMap (recordRelationIdentifiersBatch
        (resolvedIdentifierMappings customerServiceModel customerRelationMeta) "customer")) =
      [[("id", .vstr "c1")]] := by
  have h := claim_C1_hydrate_single_fetch_dedup demoRegistry customerServiceModel orderSchema
    c1Roots "customer" customerHydrateOption customerRelationMeta rfl rfl (by decide)
  exact ⟨h.1, h.2 [("id", .vstr "c1")] (by decide) (by decide)⟩

/-- A product entity whose derived searchable attributes are `title` and
`description` (string-typed, not hidden, not identifiers). -/
def searchDemoSchema : EntitySchema :=
  { entity := "product"
    attributes :=
      [("id", { type := some "string", isIdentifier := some true }),
       ("title", { type := some "string" }),
       ("description", { type := some "string" })]
    indexes := [("primary", { pk := ["id"] })] }

/-- C8 counterexample: in `query` (unlike `list`) a caller-supplied
comma-separated `searchAttributes` string is not parsed into a list (it is
truthy and therefore kept verbatim), and an empty array does not fall back
to the derived searchable set (arrays are truthy even when empty). -/
theorem claim_C8_counterexample :
    queryResolveSearchAttributes searchDemoSchema (some (.vstr "title,description")) =
      .vstr "title,description" ∧
    queryResolveSearchAttributes searchDemoSchema (some (.vstr "title,description")) ≠
      .varr [.vstr "title", .vstr "description"] ∧
    queryResolveSearchAttributes searchDemoSchema (some (.varr [])) = .varr [] ∧
    queryResolveSearchAttributes searchDemoSchema (some (.varr [])) ≠
      .varr ((getSearchableAttributeNames searchDemoSchema).map .vstr) := by
  refine ⟨by rfl, by decide, by rfl, by decide⟩

/-- C8 (amended): in `list`, given non-empty search terms, a string
`searchAttributes` is comma-split (dropping empty tokens) and a missing or
empty set defaults to the derived searchable attribute names; in `query`,
only a falsy `searchAttributes` (absent, null, empty string) defaults, and
a truthy one - including an unsplit comma string or an empty array - is
kept verbatim.  Both `list` and `query` apply their respective resolution
exactly when the split search terms are non-empty. -/
theorem claim_C8_search_attributes_amended :
    (∀ (schema : EntitySchema) (s : String),
      listResolveSearchAttributes schema (some (.vstr s)) =
        (if ((splitStringBy (fun c => c == ',') s).filter (fun t => !t.isEmpty)).isEmpty then
          .varr ((getSearchableAttributeNames schema).map .vstr)
        else .varr (((splitStringBy (fun c => c == ',') s).filter (fun t => !t.isEmpty)).map .vstr))) ∧
    (∀ schema : EntitySchema, listResolveSearchAttributes schema none =
      .varr ((getSearchableAttributeNames schema).map .vstr)) ∧
    (∀ schema : EntitySchema, listResolveSearchAttributes schema (some (.varr [])) =
      .varr ((getSearchableAttributeNames schema).map .vstr)) ∧
    (∀ (schema : EntitySchema) (v : Value), v.truthy = true →
      queryResolveSearchAttributes schema (some v) = v) ∧
    (∀ (schema : EntitySchema) (v : Value), v.truthy = false →
      queryResolveSearchAttributes schema (some v) =
        .varr ((getSearchableAttributeNames schema).map .vstr)) ∧
    (∀ (schema : EntitySchema) (q : EntityQueryModel) (s : String),
      q.search = some (.vstr s) → splitSearchTerms s ≠ [] →
      (listOpModel schema q).1.searchAttributes =
        some (listResolveSearchAttributes schema q.searchAttributes) ∧
      (queryOpModel schema q).1.searchAttributes =
        some (queryResolveSearchAttributes schema q.searchAttributes)) := by
  refine ⟨?_, ?_, ?_, ?_, ?_, ?_⟩
  · intro schema s
    simp only [listResolveSearchAttributes]
    cases hp : (splitStringBy (fun c => c == ',') s).filter (fun t => !t.isEmpty) with
    | nil => simp [Value.truthy, isEmptyVal]
    | cons a t => simp [Value.truthy, isEmptyVal]
  · intro schema; rfl
  · intro schema; rfl
  · intro schema v hv
    simp [queryResolveSearchAttributes, hv]
  · intro schema v hv
    simp [queryResolveSearchAttributes, hv]
  · intro schema q s hs hterms
    have hmap : (splitSearchTerms s).map Value.vstr ≠ [] := by
      cases h : splitSearchTerms s with
      | nil => exact absurd h hterms
      | cons a t => simp
    constructor
    · simp only [listOpModel, hs]
      cases h : splitSearchTerms s with
      | nil => exact absurd h hterms
      | cons a t => simp [h]
    · simp only [queryOpModel, hs]
      cases h : splitSearchTerms s with
      | nil => exact absurd h hterms
      | cons a t => simp [h]

/-- C8 witness: the amended resolution rules applied at the product schema -
the comma string splits in `list`, an empty array defaults in `list`, a
truthy value is kept verbatim in `query`, and a `list` call with search
terms present resolves its search attributes. -/
theorem claim_C8_witness :
    listResolveSearchAttributes searchDemoSchema (some (.vstr "title,description")) =
      .varr [.vstr "title", .vstr "description"] ∧
    listResolveSearchAttributes searchDemoSchema (some (.varr [])) =
      .varr [.vstr "title", .vstr "description"] ∧
    queryResolveSearchAttributes searchDemoSchema (some (.varr [.vstr "title"])) =
      .varr [.vstr "title"] ∧
    (listOpModel searchDemoSchema
        { search := some (.vstr "red chair"), searchAttributes := none }).1.searchAttributes =
      some (listResolveSearchAttributes searchDemoSchema none) := by
  have h := claim_C8_search_attributes_amended
  refine ⟨?_, ?_, ?_, ?_⟩
  · have := h.1 searchDemoSchema "title,description"
    simpa using this
  · exact h.2.2.1 searchDemoSchema
  · exact h.2.2.2.1 searchDemoSchema (.varr [.vstr "title"]) (by decide)
  · exact (h.2.2.2.2.2 searchDemoSchema
      { search := some (.vstr "red chair"), searchAttributes := none } "red chair" rfl
      (by decide)).1

/-- The key list of `mapSet`: unchanged when the key already exists (JS
`Map.set` keeps the position), appended otherwise. -/
theorem keys_mapSet {α : Type} (m : List (String × α)) (k : String) (v : α) :
    (mapSet m k v).map Prod.fst =
      if m.any (fun p => p.1 == k) then m.map Prod.fst else m.map Prod.fst ++ [k] := by
  unfold mapSet
  split
  · rw [List.map_map]
    apply List.map_congr_left
    intro p hp
    by_cases hh : p.1 = k
    · simp [hh]
    · simp [beq_iff_eq, hh]
  · simp

/-- Membership in the key list of `mapSet`. -/
theorem mem_keys_mapSet {α : Type} (m : List (String × α)) (k a : String) (v : α) :
    a ∈ (mapSet m k v).map Prod.fst ↔ a ∈ m.map Prod.fst ∨ a = k := by
  rw [keys_mapSet]
  split
  case isTrue h =>
    have hk : k ∈ m.map Prod.fst := by
      rw [List.any_eq_true] at h
      obtain ⟨p, hp, he⟩ := h
      rw [List.mem_map]
      exact ⟨p, hp, by simpa [beq_iff_eq] using he⟩
    constructor
    · exact Or.inl
    · rintro (ha | rfl)
      · exact ha
      · exact hk
  case isFalse h => simp

theorem formatterHidden (attId : String) (att : EntityAttribute) :
    (entityAttributeToIOSchemaAttribute attId att).hidden = att.hidden := rfl

theorem formatterIsVisible (attId : String) (att : EntityAttribute) :
    (entityAttributeToIOSchemaAttribute attId att).isVisible = att.isVisible.getD true := rfl

theorem formatterIsListable (attId : String) (att : EntityAttribute) :
    (entityAttributeToIOSchemaAttribute attId att).isListable = att.isListable.getD true := rfl

theorem formatterIsCreatable (attId : String) (att : EntityAttribute) :
    (entityAttributeToIOSchemaAttribute attId att).isCreatable = att.isCreatable.getD true := rfl

theorem formatterIsEditable (attId : String) (att : EntityAttribute) :
    (entityAttributeToIOSchemaAttribute attId att).isEditable = att.isEditable.getD true := rfl

/-- Membership characterization of one `opsSchemaStep` iteration on each of
the four accumulated key sets. -/
theorem mem_opsSchemaStep (acc : OpsSchemaAccumulator) (p : String × EntityAttribute)
    (a : String) :
    ((a ∈ (opsSchemaStep acc p).detail.map Prod.fst ↔ a ∈ acc.detail.map Prod.fst ∨
        (a = p.1 ∧ p.2.hidden.getD false = false ∧ p.2.isVisible.getD true = true)) ∧
     (a ∈ (opsSchemaStep acc p).listOut.map Prod.fst ↔ a ∈ acc.listOut.map Prod.fst ∨
        (a = p.1 ∧ p.2.hidden.getD false = false ∧ p.2.isListable.getD true = true)) ∧
     (a ∈ (opsSchemaStep acc p).createIn.map Prod.fst ↔ a ∈ acc.createIn.map Prod.fst ∨
        (a = p.1 ∧ p.2.hidden.getD false = false ∧ p.2.isCreatable.getD true = true)) ∧
     (a ∈ (opsSchemaStep acc p).updateIn.map Prod.fst ↔ a ∈ acc.updateIn.map Prod.fst ∨
        (a = p.1 ∧ p.2.hidden.getD false = false ∧ p.2.isEditable.getD true = true))) := by
  simp only [opsSchemaStep, formatterHidden, formatterIsVisible, formatterIsListable,
    formatterIsCreatable, formatterIsEditable]
  split_ifs <;>
    simp_all only [mem_keys_mapSet, Bool.false_eq_true, Bool.true_eq_false, and_true,
      true_and, and_false, false_and, or_false, false_or, iff_self]

/-- In an association list with duplicate-free keys, a key determines its
value. -/
theorem assoc_unique {α : Type} (l : List (String × α))
    (hnd : (l.map Prod.fst).Nodup) (a : String) (x y : α)
    (hx : (a, x) ∈ l) (hy : (a, y) ∈ l) : x = y := by
  induction l with
  | nil => cases hx
  | cons hd tl ih =>
    rw [List.map_cons, List.nodup_cons] at hnd
    rcases List.mem_cons.mp hx with hx1 | hx2
    · rcases List.mem_cons.mp hy with hy1 | hy2
      · rw [← hx1] at hy1
        exact (Prod.mk.injEq a x a y ▸ hy1.symm).2
      · exfalso
        apply hnd.1
        rw [← hx1]
        exact List.mem_map.mpr ⟨(a, y), hy2, rfl⟩
    · rcases List.mem_cons.mp hy with hy1 | hy2
      · exfalso
        apply hnd.1
        rw [← hy1]
        exact List.mem_map.mpr ⟨(a, x), hx2, rfl⟩
      · exact ih hnd.2 hx2 hy2

/-- Shifting the head case of an association-list scan into a cons
membership, a pure logic helper for `mem_opsFold`. -/
theorem orExists_cons {α β : Type} (P : Prop) (tl : List (α × β)) (a h1 : α) (h2 : β)
    (cond : β → Prop) :
    ((P ∨ (a = h1 ∧ cond h2)) ∨ ∃ b, (a, b) ∈ tl ∧ cond b) ↔
      (P ∨ ∃ b, (a, b) ∈ (h1, h2) :: tl ∧ cond b) := by
  constructor
  · rintro ((h | ⟨rfl, hc⟩) | ⟨b, hmem, hc⟩)
    · exact Or.inl h
    · exact Or.inr ⟨h2, List.mem_cons_self _ _, hc⟩
    · exact Or.inr ⟨b, List.mem_cons_of_mem _ hmem, hc⟩
  · rintro (h | ⟨b, hmem, hc⟩)
    · exact Or.inl (Or.inl h)
    · rcases List.mem_cons.mp hmem with heq | htl
      · cases heq
        exact Or.inl (Or.inr ⟨rfl, hc⟩)
      · exact Or.inr ⟨b, htl, hc⟩

/-- Membership characterization of the whole attribute fold of
`makeOpsDefaultIOSchema` on each of the four accumulated key sets. -/
theorem mem_opsFold (l : List (String × EntityAttribute)) (acc : OpsSchemaAccumulator)
    (a : String) :
    ((a ∈ (l.foldl opsSchemaStep acc).detail.map Prod.fst ↔
        a ∈ acc.detail.map Prod.fst ∨ ∃ att, (a, att) ∈ l ∧
          att.hidden.getD false = false ∧ att.isVisible.getD true = true) ∧
     (a ∈ (l.foldl opsSchemaStep acc).listOut.map Prod.fst ↔
        a ∈ acc.listOut.map Prod.fst ∨ ∃ att, (a, att) ∈ l ∧
          att.hidden.getD false = false ∧ att.isListable.getD true = true) ∧
     (a ∈ (l.foldl opsSchemaStep acc).createIn.map Prod.fst ↔
        a ∈ acc.createIn.map Prod.fst ∨ ∃ att, (a, att) ∈ l ∧
          att.hidden.getD false = false ∧ att.isCreatable.getD true = true) ∧
     (a ∈ (l.foldl opsSchemaStep acc).updateIn.map Prod.fst ↔
        a ∈ acc.updateIn.map Prod.fst ∨ ∃ att, (a, att) ∈ l ∧
          att.hidden.getD false = false ∧ att.isEditable.getD true = true)) := by
  induction l generalizing acc with
  | nil => simp
  | cons hd tl ih =>
    obtain ⟨hd1, hd2⟩ := hd
    have hstep := mem_opsSchemaStep acc (hd1, hd2) a
    have hrest := ih (opsSchemaStep acc (hd1, hd2))
    refine ⟨?_, ?_, ?_, ?_⟩
    · rw [List.foldl_cons, hrest.1, hstep.1]
      exact orExists_cons (a ∈ acc.detail.map Prod.fst) tl a hd1 hd2
        (fun att => att.hidden.getD false = false ∧ att.isVisible.getD true = true)
    · rw [List.foldl_cons, hrest.2.1, hstep.2.1]
      exact orExists_cons (a ∈ acc.listOut.map Prod.fst) tl a hd1 hd2
        (fun att => att.hidden.getD false = false ∧ att.isListable.getD true = true)
    · rw [List.foldl_cons, hrest.2.2.1, hstep.2.2.1]
      exact orExists_cons (a ∈ acc.createIn.map Prod.fst) tl a hd1 hd2
        (fun att => att.hidden.getD false = false ∧ att.isCreatable.getD true = true)
    · rw [List.foldl_cons, hrest.2.2.2, hstep.2.2.2]
      exact orExists_cons (a ∈ acc.updateIn.map Prod.fst) tl a hd1 hd2
        (fun att => att.hidden.getD false = false ∧ att.isEditable.getD true = true)

/-- C3: for every attribute of a schema with duplicate-free attribute
names, a hidden attribute appears in none of the four derived operation
key sets (get output, list output, create input, update input), and a
non-hidden attribute appears in the detail output iff visible, in the list
output iff listable, in the create input iff creatable and in the update
input iff editable, each flag defaulting to true when unset. -/
theorem claim_C3_ops_schema_flag_membership
    (schema : EntitySchema) (a : String) (att : EntityAttribute)
    (hnd : (schema.attributes.map Prod.fst).Nodup)
    (hmem : (a, att) ∈ schema.attributes) :
    (att.hidden.getD false = true →
      a ∉ (makeOpsDefaultIOSchema schema).getOutput.map Prod.fst ∧
      a ∉ (makeOpsDefaultIOSchema schema).listOutput.map Prod.fst ∧
      a ∉ (makeOpsDefaultIOSchema schema).createInput.map Prod.fst ∧
      a ∉ (makeOpsDefaultIOSchema schema).updateInput.map Prod.fst) ∧
    (att.hidden.getD false = false →
      ((a ∈ (makeOpsDefaultIOSchema schema).getOutput.map Prod.fst ↔
          att.isVisible.getD true = true) ∧
       (a ∈ (makeOpsDefaultIOSchema schema).listOutput.map Prod.fst ↔
          att.isListable.getD true = true) ∧
       (a ∈ (makeOpsDefaultIOSchema schema).createInput.map Prod.fst ↔
          att.isCreatable.getD true = true) ∧
       (a ∈ (makeOpsDefaultIOSchema schema).updateInput.map Prod.fst ↔
          att.isEditable.getD true = true))) := by
  have hfold := mem_opsFold schema.attributes {} a
  have h1 : a ∈ (makeOpsDefaultIOSchema schema).getOutput.map Prod.fst ↔
      ∃ att2, (a, att2) ∈ schema.attributes ∧
        att2.hidden.getD false = false ∧ att2.isVisible.getD true = true := by
    rw [show (makeOpsDefaultIOSchema schema).getOutput =
      (schema.attributes.foldl opsSchemaStep {}).detail from rfl, hfold.1]
    simp only [List.map_nil, List.not_mem_nil, false_or]
  have h2 : a ∈ (makeOpsDefaultIOSchema schema).listOutput.map Prod.fst ↔
      ∃ att2, (a, att2) ∈ schema.attributes ∧
        att2.hidden.getD false = false ∧ att2.isListable.getD true = true := by
    rw [show (makeOpsDefaultIOSchema schema).listOutput =
      (schema.attributes.foldl opsSchemaStep {}).listOut from rfl, hfold.2.1]
    simp only [List.map_nil, List.not_mem_nil, false_or]
  have h3 : a ∈ (makeOpsDefaultIOSchema schema).createInput.map Prod.fst ↔
      ∃ att2, (a, att2) ∈ schema.attributes ∧
        att2.hidden.getD false = false ∧ att2.isCreatable.getD true = true := by
    rw [show (makeOpsDefaultIOSchema schema).createInput =
      (schema.attributes.foldl opsSchemaStep {}).createIn from rfl, hfold.2.2.1]
    simp only [List.map_nil, List.not_mem_nil, false_or]
  have h4 : a ∈ (makeOpsDefaultIOSchema schema).updateInput.map Prod.fst ↔
      ∃ att2, (a, att2) ∈ schema.attributes ∧
        att2.hidden.getD false = false ∧ att2.isEditable.getD true = true := by
    rw [show (makeOpsDefaultIOSchema schema).updateInput =
      (schema.attributes.foldl opsSchemaStep {}).updateIn from rfl, hfold.2.2.2]
    simp only [List.map_nil, List.not_mem_nil, false_or]
  constructor
  · intro hhid
    refine ⟨?_, ?_, ?_, ?_⟩ <;> [rw [h1]; rw [h2]; rw [h3]; rw [h4]] <;>
      (rintro ⟨att2, hm2, hc, _⟩
       have heq := assoc_unique schema.attributes hnd a att att2 hmem hm2
       rw [← heq, hhid] at hc
       exact absurd hc (by decide))
  · intro hnohid
    refine ⟨?_, ?_, ?_, ?_⟩ <;> [rw [h1]; rw [h2]; rw [h3]; rw [h4]] <;>
      (constructor
       · rintro ⟨att2, hm2, _, hflag⟩
         have heq := assoc_unique schema.attributes hnd a att2 att hm2 hmem
         rwa [heq] at hflag
       · intro hflag
         exact ⟨att, hmem, hnohid, hflag⟩)

/-- A schema exercising every visibility flag: `a` has all defaults, `b` is
hidden (with `isVisible` even set), `c` is not visible, `d` not listable,
`e` not creatable, `f` not editable. -/
def flagsDemoSchema : EntitySchema :=
  { entity := "widget"
    attributes :=
      [("a", { type := some "string" }),
       ("b", { type := some "string", hidden := some true, isVisible := some true }),
       ("c", { type := some "string", isVisible := some false }),
       ("d", { type := some "string", isListable := some false }),
       ("e", { type := some "string", isCreatable := some false }),
       ("f", { type := some "string", isEditable := some false })]
    indexes := [("primary", { pk := ["a"] })] }

/-- C3 witness: on `flagsDemoSchema`, the hidden attribute `b` is excluded
from all four derived key sets despite `isVisible: true`, while `d`
(`isListable: false`) stays in the detail output but leaves the list
output. -/
theorem claim_C3_witness :
    "b" ∉ (makeOpsDefaultIOSchema flagsDemoSchema).getOutput.map Prod.fst ∧
    "b" ∉ (makeOpsDefaultIOSchema flagsDemoSchema).listOutput.map Prod.fst ∧
    "b" ∉ (makeOpsDefaultIOSchema flagsDemoSchema).createInput.map Prod.fst ∧
    "b" ∉ (makeOpsDefaultIOSchema flagsDemoSchema).updateInput.map Prod.fst ∧
    "d" ∈ (makeOpsDefaultIOSchema flagsDemoSchema).getOutput.map Prod.fst ∧
    "d" ∉ (makeOpsDefaultIOSchema flagsDemoSchema).listOutput.map Prod.fst := by
  have hb := claim_C3_ops_schema_flag_membership flagsDemoSchema "b"
    { type := some "string", hidden := some true, isVisible := some true }
    (by decide) (by decide)
  have hd := claim_C3_ops_schema_flag_membership flagsDemoSchema "d"
    { type := some "string", isListable := some false }
    (by decide) (by decide)
  have hbh := hb.1 (by decide)
  refine ⟨hbh.1, hbh.2.1, hbh.2.2.1, hbh.2.2.2, ?_, ?_⟩
  · exact ((hd.2 (by decide)).1).mpr (by decide)
  · intro hm
    have hcontra := ((hd.2 (by decide)).2.1).mp hm
    exact absurd hcontra (by decide)

theorem recHas_append (r1 r2 : JsRecord) (k : String) :
    recHas (r1 ++ r2) k = (recHas r1 k || recHas r2 k) := by
  simp [recHas, List.any_append]

theorem recSet_of_not_mem (r : JsRecord) (k : String) (v : Value)
    (h : recHas r k = false) : recSet r k v = r ++ [(k, v)] := by
  simp [recSet, h]

/-- The per-record extraction fold appends, in identifier-attribute order,
one field per attribute that is present in the input or reachable through
the generic `id` fallback. -/
theorem extractIdentifiersFold_spec (idAtts : List (String × Bool))
    (primary : Option String) (fields : JsRecord) (acc : JsRecord)
    (hnd : (idAtts.map Prod.fst).Nodup)
    (hdisj : ∀ k ∈ idAtts.map Prod.fst, recHas acc k = false) :
    idAtts.foldl
      (fun identifiers p =>
        if recHas fields p.1 then
          recSet identifiers p.1 ((recLookup fields p.1).getD .vnull)
        else if primary == some p.1 && recHas fields "id" then
          recSet identifiers p.1 ((recLookup fields "id").getD .vnull)
        else identifiers)
      acc =
    acc ++ idAtts.filterMap
      (fun p =>
        if recHas fields p.1 then some (p.1, (recLookup fields p.1).getD .vnull)
        else if primary == some p.1 && recHas fields "id" then
          some (p.1, (recLookup fields "id").getD .vnull)
        else none) := by
  induction idAtts generalizing acc with
  | nil => simp
  | cons p rest ih =>
    rw [List.map_cons, List.nodup_cons] at hnd
    have hacc : recHas acc p.1 = false := hdisj p.1 (by simp)
    have hdisj2 : ∀ v : Value, ∀ k ∈ rest.map Prod.fst,
        recHas (acc ++ [(p.1, v)]) k = false := by
      intro v k hk
      rw [recHas_append]
      have h1 : recHas acc k = false := hdisj k (by simp [hk])
      have h2 : recHas [(p.1, v)] k = false := by
        have : p.1 ≠ k := fun he => hnd.1 (he ▸ hk)
        simp [recHas, this]
      simp [h1, h2]
    by_cases hin : recHas fields p.1
    · simp only [List.foldl_cons, List.filterMap_cons, hin, if_true,
        recSet_of_not_mem acc p.1 _ hacc]
      rw [ih (acc ++ [(p.1, (recLookup fields p.1).getD .vnull)]) hnd.2
        (hdisj2 _)]
      simp [List.append_assoc]
    · by_cases hfb : primary == some p.1 && recHas fields "id"
      · simp only [List.foldl_cons, List.filterMap_cons, hin, hfb,
          Bool.false_eq_true, if_false, if_true,
          recSet_of_not_mem acc p.1 _ hacc]
        rw [ih (acc ++ [(p.1, (recLookup fields "id").getD .vnull)]) hnd.2
          (hdisj2 _)]
        simp [List.append_assoc]
      · simp only [List.foldl_cons, List.filterMap_cons, hin, hfb,
          Bool.false_eq_true, if_false]
        exact ih acc hnd.2 (fun k hk => hdisj k (by simp [hk]))

/-- The single-attribute demo schema of the fallback rule: the primary
identifier attribute is `entityId`, backed by a `primary` index. -/
def entityIdSchema : EntitySchema :=
  { entity := "thing"
    attributes :=
      [("entityId", { type := some "string", isIdentifier := some true }),
       ("name", { type := some "string" })]
    indexes := [("primary", { pk := ["entityId"] })] }

/-- C5: on `{name: a, id: 123}` against a schema whose primary identifier
attribute is `entityId`, extraction yields `{entityId: 123}` (fallback to
the generic `id` field); and in general, the per-record extraction copies,
in order, exactly the resolved identifier attributes that are present in
the input, using the `id` value for the primary identifier attribute when
it is absent but `id` is carried, and nothing otherwise. -/
theorem claim_C5_extract_identifiers :
    (extractEntityIdentifiers entityIdSchema
        (.vobj [("name", .vstr "a"), ("id", .vstr "123")]) {} =
      .ok (.vobj [("entityId", .vstr "123")])) ∧
    (∀ (idAtts : List (String × Bool)) (primary : Option String) (fields : JsRecord),
      (idAtts.map Prod.fst).Nodup →
      extractIdentifiersForInput idAtts primary fields =
        idAtts.filterMap
          (fun p =>
            if recHas fields p.1 then some (p.1, (recLookup fields p.1).getD .vnull)
            else if primary == some p.1 && recHas fields "id" then
              some (p.1, (recLookup fields "id").getD .vnull)
            else none)) := by
  constructor
  · rfl
  · intro idAtts primary fields hnd
    have h := extractIdentifiersFold_spec idAtts primary fields [] hnd
      (fun k _ => rfl)
    simpa [extractIdentifiersForInput] using h

/-- C5 witness: the general copy rule applied at the concrete fallback
scenario of the claim, together with the concrete pipeline result. -/
theorem claim_C5_witness :
    extractEntityIdentifiers entityIdSchema
        (.vobj [("name", .vstr "a"), ("id", .vstr "123")]) {} =
      .ok (.vobj [("entityId", .vstr "123")]) ∧
    extractIdentifiersForInput [("entityId", false)] (some "entityId")
        [("name", .vstr "a"), ("id", .vstr "123")] =
      [("entityId", .vstr "123")] := by
  refine ⟨claim_C5_extract_identifiers.1, ?_⟩
  rw [claim_C5_extract_identifiers.2 [("entityId", false)] (some "entityId")
    [("name", .vstr "a"), ("id", .vstr "123")] (by decide)]
  rfl

/-- `mapSet` preserves a predicate on the stored values. -/
theorem mapSet_forall_values {α : Type} (P : α → Prop) (m : List (String × α))
    (k : String) (v : α) (hm : ∀ p ∈ m, P p.2) (hv : P v) :
    ∀ q ∈ mapSet m k v, P q.2 := by
  intro q hq
  unfold mapSet at hq
  split at hq
  · rw [List.mem_map] at hq
    obtain ⟨r, hr, hrq⟩ := hq
    by_cases hh : r.1 == k
    · rw [← hrq]
      simp only [hh, if_true]
      exact hv
    · rw [← hrq]
      simp only [hh, Bool.false_eq_true, if_false]
      exact hm r hr
  · rcases List.mem_append.mp hq with h | h
    · exact hm q h
    · simp only [List.mem_singleton] at h
      rw [h]
      exact hv

/-- `mapSet` never produces the empty map. -/
theorem mapSet_ne_nil {α : Type} (m : List (String × α)) (k : String) (v : α) :
    mapSet m k v ≠ [] := by
  unfold mapSet
  split
  case isTrue h =>
    rw [List.any_eq_true] at h
    obtain ⟨p, hp, _⟩ := h
    intro hcon
    rw [List.map_eq_nil_iff.mp hcon] at hp
    cases hp
  case isFalse h => simp

/-- Every value stored by the index fold of `makeEntityAccessPatternsSchema`
is a present map. -/
theorem accessPatternsFold_forall_isSome (schema : EntitySchema)
    (l : List (String × EntityIndex)) (acc : List (String × Option TIOSchemaAttributesMap))
    (hacc : ∀ p ∈ acc, p.2.isSome = true) :
    ∀ p ∈ l.foldl (fun acc p => mapSet acc p.1 (some (accessPatternIndexAttributes schema p))) acc,
      p.2.isSome = true := by
  induction l generalizing acc with
  | nil => exact hacc
  | cons hd tl ih =>
    rw [List.foldl_cons]
    exact ih (mapSet acc hd.1 (some (accessPatternIndexAttributes schema hd)))
      (mapSet_forall_values (fun v => v.isSome = true) acc hd.1 _ hacc rfl)

/-- The index fold of `makeEntityAccessPatternsSchema` is non-empty whenever
some index is declared. -/
theorem accessPatternsFold_ne_nil (schema : EntitySchema)
    (l : List (String × EntityIndex)) (acc : List (String × Option TIOSchemaAttributesMap))
    (hl : l ≠ [] ∨ acc ≠ []) :
    l.foldl (fun acc p => mapSet acc p.1 (some (accessPatternIndexAttributes schema p))) acc ≠
      [] := by
  induction l generalizing acc with
  | nil =>
    rcases hl with h | h
    · exact absurd rfl h
    · exact h
  | cons hd tl ih =>
    rw [List.foldl_cons]
    exact ih (mapSet acc hd.1 (some (accessPatternIndexAttributes schema hd)))
      (Or.inr (mapSet_ne_nil acc hd.1 _))

/-- For a schema with at least one declared index, every entry of the
access-pattern map (the `primary` alias included) stores a present map. -/
theorem accessPatterns_forall_isSome (schema : EntitySchema)
    (hidx : schema.indexes ≠ []) :
    ∀ p ∈ makeEntityAccessPatternsSchema schema, p.2.isSome = true := by
  have hfold := accessPatternsFold_forall_isSome schema schema.indexes [] (by simp)
  have hne := accessPatternsFold_ne_nil schema schema.indexes [] (Or.inl hidx)
  intro p hp
  unfold makeEntityAccessPatternsSchema at hp
  by_cases hprim : mapHas (schema.indexes.foldl
      (fun acc p => mapSet acc p.1 (some (accessPatternIndexAttributes schema p))) [])
      "primary" = true
  · rw [if_pos hprim] at hp
    exact hfold p hp
  · rw [if_neg hprim] at hp
    refine mapSet_forall_values (fun v => v.isSome = true) _ _ _ hfold ?_ p hp
    cases hh : (schema.indexes.foldl
        (fun acc p => mapSet acc p.1 (some (accessPatternIndexAttributes schema p))) []).head? with
    | none =>
      exact absurd (List.head?_eq_none_iff.mp hh) hne
    | some q =>
      have hqmem : q ∈ schema.indexes.foldl
          (fun acc p => mapSet acc p.1 (some (accessPatternIndexAttributes schema p))) [] :=
        List.mem_of_mem_head? hh
      exact hfold q hqmem

/-- When every element maps to a success, `mapExcept` succeeds and preserves
the batch length. -/
theorem mapExcept_ok_of_all {α β : Type} (f : α → Except String β) (xs : List α)
    (h : ∀ x ∈ xs, ∃ r, f x = .ok r) :
    ∃ rs, mapExcept f xs = .ok rs ∧ rs.length = xs.length := by
  induction xs with
  | nil => exact ⟨[], rfl, rfl⟩
  | cons y ys ih =>
    obtain ⟨r, hr⟩ := h y (by simp)
    obtain ⟨rs, hrs, hlen⟩ := ih (fun x hx => h x (by simp [hx]))
    refine ⟨r :: rs, ?_, by simp [hlen]⟩
    simp only [mapExcept, hr, hrs]

/-- When some element maps to an error, `mapExcept` errors (with the first
such error encountered). -/
theorem mapExcept_error_of_mem {α β : Type} (f : α → Except String β) (xs : List α)
    (x : α) (hx : x ∈ xs) (e : String) (he : f x = .error e) :
    ∃ e2, mapExcept f xs = .error e2 := by
  induction xs with
  | nil => cases hx
  | cons y ys ih =>
    cases hf : f y with
    | error e3 => exact ⟨e3, by simp only [mapExcept, hf]⟩
    | ok r =>
      have hxys : x ∈ ys := by
        rcases List.mem_cons.mp hx with rfl | hm
        · rw [he] at hf; cases hf
        · exact hm
      obtain ⟨e2, he2⟩ := ih hxys
      exact ⟨e2, by simp only [mapExcept, hf, he2]⟩

/-- C6 counterexample: an array input is object-shaped (`typeof` of an
array is `object`), yet a batch holding a null element throws: the
extraction loop calls `input.hasOwnProperty` on the element.  This refutes
the claim that extraction never throws for object-shaped input. -/
theorem claim_C6_counterexample :
    isObjectVal (.varr [Value.vnull]) = true ∧
    extractEntityIdentifiers entityIdSchema (.varr [Value.vnull]) {} =
      .error "TypeError: Cannot read properties of null" := by
  exact ⟨rfl, rfl⟩

/-- C6 (amended): against a schema with at least one declared index,
`extractEntityIdentifiers` throws the `InvalidArgument` error exactly when
the input is missing or not object-shaped, and additionally throws a
`TypeError` when a batch element is null or undefined while at least one
identifier attribute is resolved; every single object input, and every
array input whose elements are all non-null, succeeds with a
shape-mirroring result - a required identifier attribute absent from the
input never makes extraction fail. -/
theorem claim_C6_extract_error_contract_amended (schema : EntitySchema)
    (context : ExtractEntityIdentifiersContext) (input : Value)
    (hidx : schema.indexes ≠ []) :
    (∀ fs, input = .vobj fs →
      extractEntityIdentifiers schema input context =
        .ok (.vobj (extractIdentifiersForInput (resolvedIdentifierAttributes schema context)
          (getEntityPrimaryIdPropertyName schema) fs))) ∧
    (∀ xs, input = .varr xs → (∀ x ∈ xs, x ≠ Value.vnull) →
      ∃ rs, extractEntityIdentifiers schema input context = .ok (.varr rs) ∧
        rs.length = xs.length) ∧
    ((∀ fs, input ≠ .vobj fs) → (∀ xs, input ≠ .varr xs) →
      ∃ e, extractEntityIdentifiers schema input context = .error e) ∧
    (∀ xs, input = .varr xs → Value.vnull ∈ xs →
      resolvedIdentifierAttributes schema context ≠ [] →
      ∃ e, extractEntityIdentifiers schema input context = .error e) := by
  have hnone : (selectedAccessPatterns schema context).any (fun p => p.2.isNone) = false := by
    rw [List.any_eq_false]
    intro p hp
    have hsome := accessPatterns_forall_isSome schema hidx p (List.mem_of_mem_filter hp)
    simp [Option.isNone, Option.isSome] at hsome ⊢
    cases hpp : p.2 with
    | none => rw [hpp] at hsome; cases hsome
    | some v => simp
  refine ⟨?_, ?_, ?_, ?_⟩
  · rintro fs rfl
    simp only [extractEntityIdentifiers, Value.truthy, isObjectVal, Bool.not_true,
      Bool.false_or, hnone, Bool.false_eq_true, if_false]
    rfl
  · rintro xs rfl hnn
    have hall : ∀ x ∈ xs, ∃ r,
        extractIdentifiersForInputValue (resolvedIdentifierAttributes schema context)
          (getEntityPrimaryIdPropertyName schema) x = .ok r := by
      intro x hx
      cases x with
      | vnull => exact absurd rfl (hnn _ hx)
      | vbool b => exact ⟨_, rfl⟩
      | vnum n => exact ⟨_, rfl⟩
      | vstr t => exact ⟨_, rfl⟩
      | vobj fs2 => exact ⟨_, rfl⟩
      | varr ys => exact ⟨_, rfl⟩
    obtain ⟨rs, hrs, hlen⟩ := mapExcept_ok_of_all
      (extractIdentifiersForInputValue (resolvedIdentifierAttributes schema context)
        (getEntityPrimaryIdPropertyName schema)) xs hall
    refine ⟨rs.map Value.vobj, ?_, by simp [hlen]⟩
    simp only [extractEntityIdentifiers, Value.truthy, isObjectVal, Bool.not_true,
      Bool.false_or, hnone, Bool.false_eq_true, if_false, hrs]
    rfl
  · intro hobj harr
    cases input with
    | vnull => exact ⟨_, rfl⟩
    | vbool b => exact ⟨_, by cases b <;> rfl⟩
    | vnum n =>
      have : extractEntityIdentifiers schema (.vnum n) context =
          .error "Input is required and must be an object containing entity-identifiers or an array of objects containing entity-identifiers" := by
        simp [extractEntityIdentifiers, isObjectVal]
      exact ⟨_, this⟩
    | vstr t =>
      have : extractEntityIdentifiers schema (.vstr t) context =
          .error "Input is required and must be an object containing entity-identifiers or an array of objects containing entity-identifiers" := by
        simp [extractEntityIdentifiers, isObjectVal]
      exact ⟨_, this⟩
    | vobj fs => exact absurd rfl (hobj fs)
    | varr xs => exact absurd rfl (harr xs)
  · rintro xs rfl hxnull hne
    have hf : extractIdentifiersForInputValue (resolvedIdentifierAttributes schema context)
        (getEntityPrimaryIdPropertyName schema) Value.vnull =
        .error "TypeError: Cannot read properties of null" := by
      cases hcase : resolvedIdentifierAttributes schema context with
      | nil => exact absurd hcase hne
      | cons a t => simp [extractIdentifiersForInputValue, hcase]
    obtain ⟨e2, he2⟩ := mapExcept_error_of_mem
      (extractIdentifiersForInputValue (resolvedIdentifierAttributes schema context)
        (getEntityPrimaryIdPropertyName schema)) xs Value.vnull hxnull _ hf
    refine ⟨e2, ?_⟩
    simp only [extractEntityIdentifiers, Value.truthy, isObjectVal, Bool.not_true,
      Bool.false_or, hnone, Bool.false_eq_true, if_false, he2]

/-- C6 witness: the amended error contract applied at `entityIdSchema` - an
object input missing the required identifier attribute still succeeds, an
all-object two-record batch mirrors its shape and length, a string input is
the `InvalidArgument` error, and a batch with a null element is the
`TypeError`. -/
theorem claim_C6_witness :
    extractEntityIdentifiers entityIdSchema (.vobj [("name", .vstr "a")]) {} =
      .ok (.vobj (extractIdentifiersForInput (resolvedIdentifierAttributes entityIdSchema {})
        (getEntityPrimaryIdPropertyName entityIdSchema) [("name", .vstr "a")])) ∧
    (∃ rs, extractEntityIdentifiers entityIdSchema
        (.varr [.vobj [("id", .vstr "1")], .vobj [("id", .vstr "2")]]) {} =
      .ok (.varr rs) ∧ rs.length = 2) ∧
    (∃ e, extractEntityIdentifiers entityIdSchema (.vstr "oops") {} = .error e) ∧
    (∃ e, extractEntityIdentifiers entityIdSchema
      (.varr [Value.vnull, .vobj [("id", .vstr "1")]]) {} = .error e) := by
  have h1 := claim_C6_extract_error_contract_amended entityIdSchema {}
    (.vobj [("name", .vstr "a")]) (by decide)
  have h2 := claim_C6_extract_error_contract_amended entityIdSchema {}
    (.varr [.vobj [("id", .vstr "1")], .vobj [("id", .vstr "2")]]) (by decide)
  have h3 := claim_C6_extract_error_contract_amended entityIdSchema {} (.vstr "oops")
    (by decide)
  have h4 := claim_C6_extract_error_contract_amended entityIdSchema {}
    (.varr [Value.vnull, .vobj [("id", .vstr "1")]]) (by decide)
  refine ⟨h1.1 _ rfl, ?_,
    h3.2.2.1 (fun fs h => Value.noConfusion h) (fun xs h => Value.noConfusion h),
    h4.2.2.2 _ rfl (by simp) (by decide)⟩
  obtain ⟨rs, hrs, hlen⟩ := h2.2.1 _ rfl (by decide)
  exact ⟨rs, hrs, hlen⟩

/-- Relation inference never changes the key set of a selection tree. -/
theorem keys_inferRelationships (schema : EntitySchema)
    (t : List (String × SelectionNode)) :
    (inferRelationshipsForEntitySelections schema t).map Prod.fst = t.map Prod.fst := by
  unfold inferRelationshipsForEntitySelections
  rw [List.map_map]
  apply List.map_congr_left
  intro p hp
  cases h : (lookupAttribute schema p.1).bind (fun a => a.relation) with
  | none => simp [h]
  | some r => simp [h]

/-- Parsing a duplicate-free list of single-segment (dot-free) attribute
names appends exactly one leaf per name, in order. -/
theorem keys_parse_single_segment (names : List String)
    (tree : List (String × SelectionNode))
    (hsingle : ∀ n ∈ names, splitStringBy (fun c => c == '.') n = [n])
    (hnd : names.Nodup)
    (hfresh : ∀ n ∈ names, mapHas tree n = false) :
    (names.foldl (fun tree p => insertSelectionPath tree (splitStringBy (fun c => c == '.') p))
        tree).map Prod.fst =
      tree.map Prod.fst ++ names := by
  induction names generalizing tree with
  | nil => simp
  | cons n rest ih =>
    rw [List.nodup_cons] at hnd
    have hf : mapHas tree n = false := hfresh n (by simp)
    have hfresh2 : ∀ m ∈ rest, mapHas (tree ++ [(n, SelectionNode.leaf)]) m = false := by
      intro m hm
      have h1 : mapHas tree m = false := hfresh m (by simp [hm])
      have h2 : ¬(n = m) := fun he => hnd.1 (he ▸ hm)
      simp only [mapHas, List.any_append] at h1 ⊢
      simp [h1, h2]
    rw [List.foldl_cons, hsingle n (by simp),
      show insertSelectionPath tree [n] = tree ++ [(n, SelectionNode.leaf)] by
        simp [insertSelectionPath, hf],
      ih (tree ++ [(n, SelectionNode.leaf)]) (fun m hm => hsingle m (by simp [hm])) hnd.2 hfresh2]
    simp

/-- C9: `list()` with no explicit attributes resolves its selection to the
parsed, relation-inferred tree built from exactly
`getListingAttributeNames()`, serializes on exactly that attribute set, and
the returned query carries the resolved selection rather than the original
absent value. -/
theorem claim_C9_list_default_attributes (schema : EntitySchema)
    (hsingle : ∀ n ∈ getListingAttributeNames schema,
      splitStringBy (fun c => c == '.') n = [n])
    (hnd : (getListingAttributeNames schema).Nodup) :
    (listOpModel schema {}).1.attributes =
      some (.tree (inferRelationshipsForEntitySelections schema
        (parseEntityAttributePaths (getListingAttributeNames schema)))) ∧
    (listOpModel schema {}).2 = getListingAttributeNames schema ∧
    (listOpModel schema {}).1.attributes ≠ none := by
  have hkeys : (parseEntityAttributePaths (getListingAttributeNames schema)).map Prod.fst =
      getListingAttributeNames schema := by
    have h := keys_parse_single_segment (getListingAttributeNames schema) [] hsingle hnd
      (fun n _ => rfl)
    simpa [parseEntityAttributePaths] using h
  have hres : (listOpModel schema {}).1.attributes =
      some (.tree (inferRelationshipsForEntitySelections schema
        (parseEntityAttributePaths (getListingAttributeNames schema)))) := rfl
  refine ⟨hres, ?_, by rw [hres]; simp⟩
  show serializationKeys (.tree (inferRelationshipsForEntitySelections schema
    (parseEntityAttributePaths (getListingAttributeNames schema)))) =
    getListingAttributeNames schema
  rw [show serializationKeys (.tree (inferRelationshipsForEntitySelections schema
      (parseEntityAttributePaths (getListingAttributeNames schema)))) =
      (inferRelationshipsForEntitySelections schema
        (parseEntityAttributePaths (getListingAttributeNames schema))).map Prod.fst from rfl,
    keys_inferRelationships, hkeys]

/-- C9 witness: the defaulting rule applied at the product schema, whose
listing attribute set is `id`, `title`, `description`. -/
theorem claim_C9_witness :
    (listOpModel searchDemoSchema {}).1.attributes =
      some (.tree (inferRelationshipsForEntitySelections searchDemoSchema
        (parseEntityAttributePaths (getListingAttributeNames searchDemoSchema)))) ∧
    (listOpModel searchDemoSchema {}).2 = ["id", "title", "description"] ∧
    (listOpModel searchDemoSchema {}).1.attributes ≠ none := by
  have h := claim_C9_list_default_attributes searchDemoSchema (by decide) (by decide)
  refine ⟨h.1, ?_, h.2.2⟩
  rw [h.2.1]
  decide
